import Mathlib

/-!
Formal model of `src/ranking/LambdaRank.py` (LambdaRank training).

Conventions of the embedding:
* relevance labels are integers (the spec's data model: "integer relevance labels"),
  modelled as `ℤ`;
* predicted scores are machine floats in the source; they are modelled as `ℚ`
  (every float value is rational), which keeps sorting and equality decidable;
* analytically derived quantities (exp, log2, the lambda values) live in `ℝ`.

Line numbers in comments refer to `src/ranking/LambdaRank.py`.
-/

namespace LR

/-- Line 153: `gain_diff = torch.pow(2.0, Y_tensor - Y_tensor.t())`, the matrix the
source builds for the `"exp2"` gain policy: entry `(i, j)` is `2 ^ (Y i - Y j)`. -/
def gainDiffExp2 {n : ℕ} (Y : Fin n → ℤ) : Fin n → Fin n → ℚ :=
  fun i j => (2 : ℚ) ^ (Y i - Y j)

/-- Line 155: `gain_diff = Y_tensor - Y_tensor.t()` for the `"identity"` policy. -/
def gainDiffIdentity {n : ℕ} (Y : Fin n → ℤ) : Fin n → Fin n → ℚ :=
  fun i j => ((Y i - Y j : ℤ) : ℚ)

/-- Lines 152-157: the gain-policy dispatch, including the
`ValueError("ndcg_gain method not supported yet ...")` raised for any
identifier other than `"exp2"` and `"identity"`. -/
def gain_diff {n : ℕ} (policy : String) (Y : Fin n → ℤ) :
    Except String (Fin n → Fin n → ℚ) :=
  if policy = "exp2" then Except.ok (gainDiffExp2 Y)
  else if policy = "identity" then Except.ok (gainDiffIdentity Y)
  else Except.error ("ndcg_gain method not supported yet " ++ policy)

/-- Written from the spec's words (§4.2), for comparison with the source's
`gainDiffExp2`: entry `(i, j) = gainPolicy(label_i) - gainPolicy(label_j)`
with the exponential-base-2 gain, i.e. `2 ^ label_i - 2 ^ label_j`. -/
def gainDiffSpecExp2 {n : ℕ} (Y : Fin n → ℤ) : Fin n → Fin n → ℚ :=
  fun i j => (2 : ℚ) ^ (Y i) - (2 : ℚ) ^ (Y j)

/-- Stable insertion (descending by score, ties keep earlier original index first)
used to model `torch.argsort(y_pred, dim=0, descending=True)`: `insertDesc s k l`
inserts index `k` into the already sorted list `l` of earlier indices. -/
def insertDesc {n : ℕ} (s : Fin n → ℚ) (k : Fin n) : List (Fin n) → List (Fin n)
  | [] => [k]
  | j :: l => if s j < s k then k :: j :: l else j :: insertDesc s k l

/-- Model of `torch.argsort(y_pred, dim=0, descending=True)` (line 158):
the list whose `p`-th entry is the original index of the `p`-th largest score,
with the stable (original index order) tie-break. -/
def argsortDesc {n : ℕ} (s : Fin n → ℚ) : List (Fin n) :=
  (List.finRange n).foldl (fun acc k => insertDesc s k acc) []

/-- Line 158: `rank_order = torch.argsort(y_pred, dim=0, descending=True) + 1`.
Entry `k` is the argsort output at position `k`, plus one — NOT the rank of
document `k` (that would be the inverse permutation). -/
def rank_order {n : ℕ} (s : Fin n → ℚ) (k : Fin n) : ℕ :=
  ((argsortDesc s).getD k.val k).val + 1

/-- Position of `k` in a list of indices (0 when absent). -/
def idxIn {n : ℕ} (k : Fin n) : List (Fin n) → ℕ
  | [] => 0
  | j :: l => if j = k then 0 else idxIn k l + 1

/-- Written from the spec's words (§4.3), for comparison with the source's
`rank_order`: the 1-based rank of document `k` when scores are sorted strictly
descending with the stable original-index tie-break. -/
def trueRank {n : ℕ} (s : Fin n → ℚ) (k : Fin n) : ℕ :=
  idxIn k (argsortDesc s) + 1

/-- Line 159: `decay_diff = 1.0 / torch.log2(rank_order + 1.0)
- 1.0 / torch.log2(rank_order.t() + 1.0)`. -/
noncomputable def decay_diff {n : ℕ} (s : Fin n → ℚ) : Fin n → Fin n → ℝ :=
  fun i j =>
    1 / Real.logb 2 ((rank_order s i : ℝ) + 1) -
      1 / Real.logb 2 ((rank_order s j : ℝ) + 1)

/-- Written from the spec's words (§4.3), for comparison with the source's
`decay_diff`: entry `(i, j) = 1/log2(rank_i + 1) - 1/log2(rank_j + 1)` where
`rank_k` is the true 1-based rank of document `k`. -/
noncomputable def decayDiffSpec {n : ℕ} (s : Fin n → ℚ) : Fin n → Fin n → ℝ :=
  fun i j =>
    1 / Real.logb 2 ((trueRank s i : ℝ) + 1) -
      1 / Real.logb 2 ((trueRank s j : ℝ) + 1)

/-- C9: for every predicted score vector, the decay-difference matrix built by the
source is anti-symmetric (entry `(i, j)` is the negation of entry `(j, i)`) and its
diagonal is all zero, regardless of ties in the scores. -/
theorem decay_diff_antisymm {n : ℕ} (s : Fin n → ℚ) (i j : Fin n) :
    decay_diff s i j = - decay_diff s j i ∧ decay_diff s i i = 0 := by
  unfold decay_diff
  constructor <;> ring

/-- C9 witness: the anti-symmetry and zero-diagonal facts at a concrete score
vector and concrete index pair. -/
theorem decay_diff_antisymm_witness :
    decay_diff (![1, 3, 2] : Fin 3 → ℚ) 0 1 = - decay_diff (![1, 3, 2] : Fin 3 → ℚ) 1 0 ∧
      decay_diff (![1, 3, 2] : Fin 3 → ℚ) 0 0 = 0 :=
  decay_diff_antisymm (![1, 3, 2] : Fin 3 → ℚ) 0 1

/-- C1: evaluation of the source's exp2 gain matrix at labels `[1, 0]`.
The code produces entry `(i, j) = 2 ^ (Y i - Y j)`: the diagonal is `1` (not `0`),
entry `(0, 1)` is `2` while the claimed `2^1 - 2^0` is `1`, and the matrix is not
anti-symmetric (`2 ≠ -(1/2)`), contradicting the claim (and the formula in the
source file's own docstring, `gain(rel_i) - gain(rel_j)`). -/
theorem gain_diff_exp2_eval :
    gain_diff "exp2" (![1, 0] : Fin 2 → ℤ) = Except.ok (gainDiffExp2 ![1, 0]) ∧
    gainDiffExp2 (![1, 0] : Fin 2 → ℤ) 0 0 = 1 ∧
    gainDiffExp2 (![1, 0] : Fin 2 → ℤ) 0 1 = 2 ∧
    gainDiffExp2 (![1, 0] : Fin 2 → ℤ) 1 0 = 1 / 2 ∧
    gainDiffSpecExp2 (![1, 0] : Fin 2 → ℤ) 0 0 = 0 ∧
    gainDiffSpecExp2 (![1, 0] : Fin 2 → ℤ) 0 1 = 1 ∧
    gainDiffExp2 (![1, 0] : Fin 2 → ℤ) 0 0 ≠ 0 ∧
    gainDiffExp2 (![1, 0] : Fin 2 → ℤ) 0 1 ≠
      - gainDiffExp2 (![1, 0] : Fin 2 → ℤ) 1 0 := by
  refine ⟨rfl, ?_, ?_, ?_, ?_, ?_, ?_, ?_⟩ <;>
    norm_num [gainDiffExp2, gainDiffSpecExp2, Matrix.cons_val_zero, Matrix.cons_val_one,
      Matrix.head_cons]

/-- C2: evaluation of the source's rank computation at scores `[1, 3, 2]`.
The code's `rank_order` is the argsort output plus one, `[2, 3, 1]`, while the
true 1-based ranks are `[3, 1, 2]`; consequently the decay-difference matrix the
code builds differs from the one the claim describes at entry `(0, 1)`. -/
theorem rank_order_eval :
    rank_order (![1, 3, 2] : Fin 3 → ℚ) 0 = 2 ∧
    rank_order (![1, 3, 2] : Fin 3 → ℚ) 1 = 3 ∧
    rank_order (![1, 3, 2] : Fin 3 → ℚ) 2 = 1 ∧
    trueRank (![1, 3, 2] : Fin 3 → ℚ) 0 = 3 ∧
    trueRank (![1, 3, 2] : Fin 3 → ℚ) 1 = 1 ∧
    trueRank (![1, 3, 2] : Fin 3 → ℚ) 2 = 2 ∧
    decay_diff (![1, 3, 2] : Fin 3 → ℚ) 0 1 ≠
      decayDiffSpec (![1, 3, 2] : Fin 3 → ℚ) 0 1 := by
  have h0 : rank_order (![1, 3, 2] : Fin 3 → ℚ) 0 = 2 := by decide
  have h1 : rank_order (![1, 3, 2] : Fin 3 → ℚ) 1 = 3 := by decide
  have t0 : trueRank (![1, 3, 2] : Fin 3 → ℚ) 0 = 3 := by decide
  have t1 : trueRank (![1, 3, 2] : Fin 3 → ℚ) 1 = 1 := by decide
  refine ⟨h0, h1, by decide, t0, t1, by decide, ?_⟩
  have hlog2 : Real.logb 2 2 = 1 := Real.logb_self_eq_one (by norm_num)
  have hlog4 : Real.logb 2 4 = 2 := by
    have h4 : (4 : ℝ) = 2 ^ (2 : ℕ) := by norm_num
    rw [h4, Real.logb_pow, hlog2]
    norm_num
  have hlog3 : 0 < Real.logb 2 3 := Real.logb_pos (by norm_num) (by norm_num)
  have h3pos : 0 < 1 / Real.logb 2 3 := one_div_pos.mpr hlog3
  unfold decay_diff decayDiffSpec
  rw [h0, h1, t0, t1]
  have e2 : ((2 : ℕ) : ℝ) + 1 = 3 := by norm_num
  have e3 : ((3 : ℕ) : ℝ) + 1 = 4 := by norm_num
  have e1 : ((1 : ℕ) : ℝ) + 1 = 2 := by norm_num
  rw [e1, e2, e3, hlog4, hlog2]
  intro h
  have : 1 / Real.logb 2 3 = 0 := by linarith
  linarith

/-- Line 150: `score_diff = 1.0 + torch.exp(sigma * (y_pred - y_pred.t()))`. -/
noncomputable def score_diff {n : ℕ} (sigma : ℝ) (s : Fin n → ℝ) : Fin n → Fin n → ℝ :=
  fun i j => 1 + Real.exp (sigma * (s i - s j))

/-- Lines 161-162: `lambda_update = - N / score_diff * gain_diff * decay_diff`,
then `torch.sum(lambda_update, 1, keepdim=True)` (row sums). -/
noncomputable def lambda_update {n : ℕ} (N sigma : ℝ) (gd dd : Fin n → Fin n → ℝ)
    (s : Fin n → ℝ) : Fin n → ℝ :=
  fun i => ∑ j, - N / score_diff sigma s i j * gd i j * dd i j

/-- C3: for every score vector, any `N > 0` and `sigma > 0`, the per-document lambda
vector computed by the source equals, entrywise,
`lambda_i = ∑ j, -N * gain_diff[i,j] * decay_diff[i,j] / (1 + exp(sigma * (s_i - s_j)))`.
(The source computes it inside `with torch.no_grad()`, lines 149-167.) -/
theorem lambda_update_entrywise {n : ℕ} (N sigma : ℝ) (hN : 0 < N) (hsig : 0 < sigma)
    (gd dd : Fin n → Fin n → ℝ) (s : Fin n → ℝ) (i : Fin n) :
    lambda_update N sigma gd dd s i =
      ∑ j, - N * gd i j * dd i j / (1 + Real.exp (sigma * (s i - s j))) := by
  unfold lambda_update score_diff
  refine Finset.sum_congr rfl fun j _ => ?_
  ring

/-- C3 witness: the entrywise identity applied at a concrete one-document session
with `N = 1 > 0` and `sigma = 1 > 0`. -/
theorem lambda_update_entrywise_witness :
    (0 : ℝ) < 1 ∧
      lambda_update (n := 1) 1 1 (fun _ _ => 0) (fun _ _ => 0) (fun _ => 0) 0 =
        ∑ j : Fin 1, - (1 : ℝ) * (fun _ _ => (0 : ℝ)) 0 j * (fun _ _ => (0 : ℝ)) 0 j /
          (1 + Real.exp (1 * ((fun _ => (0 : ℝ)) 0 - (fun _ => (0 : ℝ)) j))) :=
  ⟨by norm_num,
    lambda_update_entrywise 1 1 (by norm_num) (by norm_num)
      (fun _ _ => 0) (fun _ _ => 0) (fun _ => 0) 0⟩

/-- Dot product of one weight row with an input vector (the row computation
inside `nn.Linear`). -/
def dotProd (r x : List ℝ) : ℝ := ((r.zip x).map fun p => p.1 * p.2).sum

/-- Model of `nn.Linear(W, b)` applied to a vector: one output per weight row,
`row · x + bias`. -/
def linearLayer (Wm : List (List ℝ)) (b : List ℝ) (x : List ℝ) : List ℝ :=
  (Wm.zip b).map fun p => dotProd p.1 x + p.2

/-- `F.relu`. -/
def relu (x : ℝ) : ℝ := max x 0

/-- `nn.ReLU6`: clamp to the interval `[0, 6]`. -/
def relu6 (x : ℝ) : ℝ := min (max x 0) 6

/-- Lines 53-60, `LambdaRank.forward` on one document's feature vector: the hidden
`fc` layers with ReLU activation, then the last `fc` layer followed by
`self.activation` (ReLU6) and multiplication by `self.sigma`. -/
def lambdaRankForward (hidden : List (List (List ℝ) × List ℝ))
    (fcLast : List (List ℝ) × List ℝ) (sigma : ℝ) (x : List ℝ) : List ℝ :=
  (linearLayer fcLast.1 fcLast.2
    (hidden.foldl (fun v p => (linearLayer p.1 p.2 v).map relu) x)).map
      fun z => relu6 z * sigma

/-- C10: for `sigma > 0`, every scalar score emitted by the scoring network's
forward pass lies in `[0, 6 * sigma]` (the final layer output passes through ReLU6
before the multiplication by sigma), and hence every pairwise score difference is
bounded in absolute value by `6 * sigma`. -/
theorem lambdaRankForward_bounded (hidden : List (List (List ℝ) × List ℝ))
    (fcLast : List (List ℝ) × List ℝ) (sigma : ℝ) (x₁ x₂ : List ℝ) (s t : ℝ)
    (hsig : 0 < sigma) (h₁ : s ∈ lambdaRankForward hidden fcLast sigma x₁)
    (h₂ : t ∈ lambdaRankForward hidden fcLast sigma x₂) :
    0 ≤ s ∧ s ≤ 6 * sigma ∧ |s - t| ≤ 6 * sigma := by
  obtain ⟨z, hz, rfl⟩ := List.mem_map.1 h₁
  obtain ⟨w, hw, rfl⟩ := List.mem_map.1 h₂
  have hz0 : 0 ≤ relu6 z := le_min (le_max_right z 0) (by norm_num)
  have hz6 : relu6 z ≤ 6 := min_le_right _ _
  have hw0 : 0 ≤ relu6 w := le_min (le_max_right w 0) (by norm_num)
  have hw6 : relu6 w ≤ 6 := min_le_right _ _
  have hs0 : 0 ≤ relu6 z * sigma := mul_nonneg hz0 hsig.le
  have hs6 : relu6 z * sigma ≤ 6 * sigma := mul_le_mul_of_nonneg_right hz6 hsig.le
  have ht0 : 0 ≤ relu6 w * sigma := mul_nonneg hw0 hsig.le
  have ht6 : relu6 w * sigma ≤ 6 * sigma := mul_le_mul_of_nonneg_right hw6 hsig.le
  refine ⟨hs0, hs6, ?_⟩
  rw [abs_sub_le_iff]
  constructor <;> linarith

/-- C10 witness: a concrete one-layer network with weight `[[1]]`, bias `[0]`,
`sigma = 1` and input `[7]` emits the score `6`, which satisfies the bounds. -/
theorem lambdaRankForward_bounded_witness :
    (6 : ℝ) ∈ lambdaRankForward [] ([[1]], [0]) 1 [7] ∧
      (0 ≤ (6 : ℝ) ∧ (6 : ℝ) ≤ 6 * 1 ∧ |(6 : ℝ) - 6| ≤ 6 * 1) := by
  have hmem : (6 : ℝ) ∈ lambdaRankForward [] ([[1]], [0]) 1 [7] := by
    norm_num [lambdaRankForward, linearLayer, dotProd, relu6, relu]
  exact ⟨hmem,
    lambdaRankForward_bounded [] ([[1]], [0]) 1 [7] [7] 6 6 (by norm_num) hmem hmem⟩

/-- A query session as the training loop consumes it: a feature matrix (one row of
rationals per document) and the parallel integer label vector. -/
abbrev Query := List (List ℚ) × List ℤ

/-- External collaborators and configuration consumed by `train` (lines 91-136):
the scoring network (abstract over its weights `W`), the ideal-DCG normalizer
(`metrics.NDCG.maxDCG`, whose file is not under `src/`; kept abstract as a total
function of the labels), the gain-policy identifier, sigma, the accumulation
window `batch_size` (line 136: 100), and the optimizer step, abstracted as a
weight update from the back-propagated `(y_pred, grad)` pairs. -/
structure Cfg (W : Type) where
  net : W → List (List ℚ) → List ℚ
  idealDCG : List ℤ → ℝ
  policy : String
  sigma : ℝ
  batch_size : ℕ
  optStep : W → List (List ℚ × List ℝ) → W

/-- State of one training run, with observation counters: `count`, `grad_batch`,
`y_pred_batch` are the source's loop variables (lines 135-137); `weights` the
network parameters; `pendingGrads` the gradients sitting in the network from
`backward` calls, cleared by `zero_grad`; `forwardCalls`, `stepCalls` and
`backwardLog` record the calls made to the network and the optimizer. -/
structure TrainState (W : Type) where
  count : ℕ
  grad_batch : List (List ℝ)
  y_pred_batch : List (List ℚ)
  weights : W
  pendingGrads : List (List ℚ × List ℝ)
  forwardCalls : ℕ
  stepCalls : ℕ
  backwardLog : List (List ℚ × List ℝ)

/-- The label list viewed as a vector aligned with the `n` predicted scores
(feature rows and label entries align 1:1 per the data contract). -/
def queryLabels (Y : List ℤ) (n : ℕ) : Fin n → ℤ := fun i => Y.getD i.val 0

/-- Lines 149-162 for one query: the lambda vector built from the predicted
scores `y_pred`, a gain matrix `gm`, the rank-decay matrix recomputed from
`y_pred`, the normalizer `N` and `sigma`. -/
noncomputable def queryLambda (sigma N : ℝ) (y_pred : List ℚ)
    (gm : Fin y_pred.length → Fin y_pred.length → ℚ) : List ℝ :=
  (List.finRange y_pred.length).map
    (lambda_update N sigma (fun i j => (gm i j : ℝ)) (decay_diff y_pred.get)
      (fun i => (y_pred.get i : ℝ)))

/-- The lambda vector `processQuery` computes for query `q` at weights `w`
(`[]` when the gain policy is unsupported, since the `ValueError` fires before
the lambda is built). -/
noncomputable def queryLambdaOf {W : Type} (cfg : Cfg W) (w : W) (q : Query) : List ℝ :=
  match gain_diff cfg.policy (queryLabels q.2 (cfg.net w q.1).length) with
  | Except.ok gm => queryLambda cfg.sigma (1 / cfg.idealDCG q.2) (cfg.net w q.1) gm
  | Except.error _ => []

/-- The state after the per-query forward pass, lambda computation and the two
batch appends (lines 143-172), before the flush check. -/
noncomputable def accumState {W : Type} (cfg : Cfg W) (s : TrainState W) (q : Query) :
    TrainState W :=
  { s with
    y_pred_batch := s.y_pred_batch ++ [cfg.net s.weights q.1],
    grad_batch := s.grad_batch ++ [queryLambdaOf cfg s.weights q],
    forwardCalls := s.forwardCalls + 1,
    count := s.count + 1 }

/-- Lines 173-182: when `count % batch_size == 0`, back-propagate every stored
`(y_pred, grad / batch_size)` pair, apply one optimizer step, zero the gradients
and clear both batch buffers; otherwise do nothing. -/
noncomputable def maybeFlush {W : Type} (cfg : Cfg W) (s : TrainState W) : TrainState W :=
  if s.count % cfg.batch_size = 0 then
    let pairs := s.y_pred_batch.zip
      (s.grad_batch.map fun g => g.map fun v => v / (cfg.batch_size : ℝ))
    { s with
      weights := cfg.optStep s.weights (s.pendingGrads ++ pairs),
      stepCalls := s.stepCalls + 1,
      backwardLog := s.backwardLog ++ pairs,
      pendingGrads := [],
      grad_batch := [],
      y_pred_batch := [] }
  else s

/-- Lines 164-167 in isolation: the source tests whether the scalar sum of the
lambda vector compares equal to `float('inf')` (a floating-point test, abstracted
here as the boolean `sumIsInf`), invokes the interactive debugger
(`ipdb.set_trace()`) when it fires, and then appends the lambda vector to
`grad_batch` unconditionally. The boolean in the result records whether the
debugger was invoked. -/
def gradAppendStep (grad_batch : List (List ℝ)) (lam : List ℝ) (sumIsInf : Bool) :
    List (List ℝ) × Bool :=
  if sumIsInf then (grad_batch ++ [lam], true) else (grad_batch ++ [lam], false)

/-- One iteration of the inner loop of `train` (lines 139-182): skip the session
when its labels sum to zero; otherwise run the forward pass, append the
prediction, build the gain matrix (raising `ValueError` for an unsupported
policy; the error carries the state at the raise), compute and append the lambda
vector, bump `count` and flush when the window is full. -/
noncomputable def processQuery {W : Type} (cfg : Cfg W) (s : TrainState W) (q : Query) :
    Except (String × TrainState W) (TrainState W) :=
  if q.2.sum = 0 then Except.ok s
  else
    match gain_diff cfg.policy (queryLabels q.2 (cfg.net s.weights q.1).length) with
    | Except.error e =>
        Except.error (e,
          { s with
            y_pred_batch := s.y_pred_batch ++ [cfg.net s.weights q.1],
            forwardCalls := s.forwardCalls + 1 })
    | Except.ok _ => Except.ok (maybeFlush cfg (accumState cfg s q))

/-- The inner loop over the epoch's sessions, propagating the `ValueError`. -/
noncomputable def runQueries {W : Type} (cfg : Cfg W) :
    TrainState W → List Query → Except (String × TrainState W) (TrainState W)
  | s, [] => Except.ok s
  | s, q :: qs =>
      match processQuery cfg s q with
      | Except.error e => Except.error e
      | Except.ok s₂ => runQueries cfg s₂ qs

/-- Lines 130-137: at the start of each epoch the source calls `net.zero_grad()`
and resets `count = 0` and both batch buffers to `[]`; weights, call counters and
the backward log persist across epochs. -/
def epochInit {W : Type} (s : TrainState W) : TrainState W :=
  { s with count := 0, grad_batch := [], y_pred_batch := [], pendingGrads := [] }

/-- One epoch of `train` (lines 130-185). -/
noncomputable def runEpoch {W : Type} (cfg : Cfg W) (s : TrainState W) (qs : List Query) :
    Except (String × TrainState W) (TrainState W) :=
  runQueries cfg (epochInit s) qs

/-- Number of non-degenerate sessions (label sum nonzero) in a list. -/
def nondegCount (qs : List Query) : ℕ :=
  qs.countP fun q => decide (q.2.sum ≠ 0)

/-- A fresh training state at given initial weights. -/
def initState {W : Type} (w : W) : TrainState W :=
  { count := 0, grad_batch := [], y_pred_batch := [], weights := w,
    pendingGrads := [], forwardCalls := 0, stepCalls := 0, backwardLog := [] }

/-- A trivial concrete configuration over unit weights, used to instantiate the
state-machine theorems at concrete inputs. -/
noncomputable def cfg0 (policy : String) (B : ℕ) : Cfg Unit :=
  { net := fun _ X => X.map fun _ => 0,
    idealDCG := fun _ => 1,
    policy := policy,
    sigma := 1,
    batch_size := B,
    optStep := fun w _ => w }

theorem gain_diff_ok {n : ℕ} (policy : String) (Y : Fin n → ℤ)
    (h : policy = "exp2" ∨ policy = "identity") :
    ∃ gm, gain_diff policy Y = Except.ok gm := by
  rcases h with h | h <;> subst h
  · exact ⟨_, rfl⟩
  · exact ⟨_, rfl⟩

theorem processQuery_skip {W : Type} (cfg : Cfg W) (s : TrainState W)
    (X : List (List ℚ)) (Y : List ℤ) (h : Y.sum = 0) :
    processQuery cfg s (X, Y) = Except.ok s := by
  simp [processQuery, h]

theorem processQuery_run {W : Type} (cfg : Cfg W) (s : TrainState W) (q : Query)
    (hq : q.2.sum ≠ 0) (hpol : cfg.policy = "exp2" ∨ cfg.policy = "identity") :
    processQuery cfg s q = Except.ok (maybeFlush cfg (accumState cfg s q)) := by
  obtain ⟨gm, hgm⟩ := gain_diff_ok cfg.policy
    (queryLabels q.2 (cfg.net s.weights q.1).length) hpol
  simp [processQuery, hq, hgm]

theorem runQueries_append {W : Type} (cfg : Cfg W) (s : TrainState W)
    (l₁ l₂ : List Query) :
    runQueries cfg s (l₁ ++ l₂) =
      match runQueries cfg s l₁ with
      | Except.error e => Except.error e
      | Except.ok s₂ => runQueries cfg s₂ l₂ := by
  induction l₁ generalizing s with
  | nil => simp [runQueries]
  | cons q qs ih =>
      simp only [List.cons_append, runQueries]
      cases processQuery cfg s q with
      | error e => rfl
      | ok s₂ => exact ih s₂

/-- C5: a session whose relevance labels sum to zero is skipped entirely — the
processing step returns the state unchanged (no forward call, no appends, no
backward, no flush-counter advance), and inserting such a session anywhere into
an epoch leaves the whole epoch run unchanged. -/
theorem degenerate_session_skipped {W : Type} (cfg : Cfg W) (s : TrainState W)
    (X : List (List ℚ)) (Y : List ℤ) (h : Y.sum = 0) (pre post : List Query) :
    processQuery cfg s (X, Y) = Except.ok s ∧
      runEpoch cfg s (pre ++ (X, Y) :: post) = runEpoch cfg s (pre ++ post) := by
  refine ⟨processQuery_skip cfg s X Y h, ?_⟩
  unfold runEpoch
  rw [runQueries_append, runQueries_append]
  cases hrun : runQueries cfg (epochInit s) pre with
  | error e => rfl
  | ok s₂ =>
      show runQueries cfg s₂ ((X, Y) :: post) = runQueries cfg s₂ post
      simp [runQueries, processQuery_skip cfg s₂ X Y h]

/-- C5 witness: the skip applied at a concrete all-zero-label session inside a
concrete epoch. -/
theorem degenerate_session_skipped_witness :
    processQuery (cfg0 "exp2" 100) (initState ()) ([[1]], [0, 0]) =
        Except.ok (initState ()) ∧
      runEpoch (cfg0 "exp2" 100) (initState ())
          ([] ++ ([[1]], [0, 0]) :: []) =
        runEpoch (cfg0 "exp2" 100) (initState ()) ([] ++ []) :=
  degenerate_session_skipped (cfg0 "exp2" 100) (initState ()) [[1]] [0, 0]
    (by decide) [] []

/-- C4 counterexample: at a concrete input where the source's non-finiteness test
fires (`sumIsInf = true`), the lambda vector is still appended to the batch: the
query's contribution is not dropped and no fault is reported — the only reaction
is the interactive debugger. This refutes the claim that the offending query's
contribution is dropped rather than appended. -/
theorem instability_not_dropped :
    gradAppendStep [] [42] true = ([[42]], true) ∧
      (gradAppendStep [] [42] true).1 ≠ [] := by
  constructor
  · rfl
  · intro h
    simp [gradAppendStep] at h

/-- C4 amended: the source only tests, per query, whether the scalar sum of the
lambda vector compares equal to `+inf`, and when the test fires it invokes an
interactive debugger; in every case the lambda vector is appended to the batch
and the loop continues — no query's contribution is dropped and no
NumericalInstabilityFault exists. At the loop level, every non-degenerate query
under a supported policy has its lambda vector appended to `grad_batch` before
the flush check, irrespective of the values in it. -/
theorem instability_appended {W : Type} (cfg : Cfg W) (s : TrainState W) (q : Query)
    (bat : List (List ℝ)) (lam : List ℝ) (flag : Bool)
    (hq : q.2.sum ≠ 0) (hpol : cfg.policy = "exp2" ∨ cfg.policy = "identity") :
    (gradAppendStep bat lam flag).1 = bat ++ [lam] ∧
      processQuery cfg s q = Except.ok (maybeFlush cfg (accumState cfg s q)) ∧
      (accumState cfg s q).grad_batch =
        s.grad_batch ++ [queryLambdaOf cfg s.weights q] := by
  refine ⟨?_, processQuery_run cfg s q hq hpol, rfl⟩
  cases flag <;> simp [gradAppendStep]

/-- C4 amended witness: the append-regardless behaviour at a concrete
non-degenerate query with the instability flag raised. -/
theorem instability_appended_witness :
    (gradAppendStep [] [42] true).1 = [] ++ [[42]] ∧
      processQuery (cfg0 "exp2" 2) (initState ()) ([[1]], [1]) =
        Except.ok (maybeFlush (cfg0 "exp2" 2)
          (accumState (cfg0 "exp2" 2) (initState ()) ([[1]], [1]))) ∧
      (accumState (cfg0 "exp2" 2) (initState ()) ([[1]], [1])).grad_batch =
        (initState ()).grad_batch ++
          [queryLambdaOf (cfg0 "exp2" 2) (initState ()).weights ([[1]], [1])] :=
  instability_appended (cfg0 "exp2" 2) (initState ()) ([[1]], [1]) [] [42] true
    (by decide) (Or.inl rfl)

/-- C8 counterexample: with the unsupported gain policy `"foo"` and a concrete
non-degenerate session, training does not fail before any score computation: the
`ValueError` is raised only inside the loop, after the query's forward pass (the
error state records one forward call and the appended prediction), refuting the
claim that the failure happens before any query's scores are computed. -/
theorem unsupported_policy_not_fail_fast :
    processQuery (cfg0 "foo" 100) (initState ()) ([[1]], [1]) =
      Except.error ("ndcg_gain method not supported yet foo",
        { count := 0, grad_batch := [], y_pred_batch := [[0]], weights := (),
          pendingGrads := [], forwardCalls := 1, stepCalls := 0,
          backwardLog := [] }) := by
  rfl

/-- C8 amended: for every gain-policy identifier other than `"exp2"` and
`"identity"`, training fails with the unsupported-policy `ValueError`, but only
while processing the first non-degenerate query: the error is raised after that
query's forward scores are computed (one forward call, prediction appended) and
before any gradient, backward call or optimizer step, and degenerate sessions
raise no error at all. -/
theorem unsupported_policy_error {W : Type} (cfg : Cfg W) (s : TrainState W)
    (q : Query) (hq : q.2.sum ≠ 0)
    (h1 : cfg.policy ≠ "exp2") (h2 : cfg.policy ≠ "identity") :
    processQuery cfg s q =
      Except.error ("ndcg_gain method not supported yet " ++ cfg.policy,
        { s with
          y_pred_batch := s.y_pred_batch ++ [cfg.net s.weights q.1],
          forwardCalls := s.forwardCalls + 1 }) := by
  simp [processQuery, hq, gain_diff, h1, h2]

/-- C8 amended witness: the in-loop failure at a concrete unsupported policy and
concrete non-degenerate query. -/
theorem unsupported_policy_error_witness :
    processQuery (cfg0 "foo" 100) (initState ()) ([[2]], [1]) =
      Except.error ("ndcg_gain method not supported yet " ++ (cfg0 "foo" 100).policy,
        { initState () with
          y_pred_batch := (initState ()).y_pred_batch ++
            [(cfg0 "foo" 100).net (initState ()).weights [[2]]],
          forwardCalls := (initState ()).forwardCalls + 1 }) :=
  unsupported_policy_error (cfg0 "foo" 100) (initState ()) ([[2]], [1])
    (by decide) (by decide) (by decide)

theorem flush_mod_eq {B c : ℕ} (hB : 0 < B) (h : (c + 1) % B = 0) :
    c % B + 1 = B ∧ (c + 1) / B = c / B + 1 := by
  rcases Nat.lt_or_ge 1 B with hB2 | hB1
  · have hmod : (c + 1) % B = (c % B + 1) % B := by
      conv_lhs => rw [Nat.add_mod]
      rw [Nat.mod_eq_of_lt hB2]
    have hlt : c % B < B := Nat.mod_lt c hB
    rcases Nat.lt_or_eq_of_le hlt with hlt2 | heq
    · rw [hmod, Nat.mod_eq_of_lt hlt2] at h
      exact absurd h (Nat.succ_ne_zero _)
    · refine ⟨heq, ?_⟩
      rw [Nat.succ_div, if_pos (Nat.dvd_of_mod_eq_zero h)]
  · have hB1' : B = 1 := Nat.le_antisymm hB1 hB
    subst hB1'
    exact ⟨by simp [Nat.mod_one], by simp [Nat.div_one]⟩

theorem noflush_mod_eq {B c : ℕ} (hB : 0 < B) (h : (c + 1) % B ≠ 0) :
    (c + 1) % B = c % B + 1 ∧ (c + 1) / B = c / B := by
  have hndvd : ¬ B ∣ (c + 1) := fun hd => h (Nat.mod_eq_zero_of_dvd hd)
  have hdiv : (c + 1) / B = c / B := by
    rw [Nat.succ_div, if_neg hndvd]
    exact rfl
  rcases Nat.lt_or_ge 1 B with hB2 | hB1
  · have hmod : (c + 1) % B = (c % B + 1) % B := by
      conv_lhs => rw [Nat.add_mod]
      rw [Nat.mod_eq_of_lt hB2]
    have hlt : c % B < B := Nat.mod_lt c hB
    rcases Nat.lt_or_eq_of_le hlt with hlt2 | heq
    · exact ⟨by rw [hmod, Nat.mod_eq_of_lt hlt2], hdiv⟩
    · exfalso
      apply h
      rw [hmod, show c % B + 1 = B from heq, Nat.mod_self]
  · have hB1' : B = 1 := Nat.le_antisymm hB1 hB
    subst hB1'
    simp [Nat.mod_one] at h

theorem processQuery_fields {W : Type} (cfg : Cfg W) (s : TrainState W) (q : Query)
    (hq : q.2.sum ≠ 0) (hpol : cfg.policy = "exp2" ∨ cfg.policy = "identity") :
    ∃ s₂, processQuery cfg s q = Except.ok s₂ ∧ s₂.count = s.count + 1 ∧
      ((s.count + 1) % cfg.batch_size = 0 →
        s₂.stepCalls = s.stepCalls + 1 ∧ s₂.grad_batch = [] ∧
        s₂.y_pred_batch = [] ∧ s₂.pendingGrads = [] ∧
        s₂.backwardLog = s.backwardLog ++
          (s.y_pred_batch ++ [cfg.net s.weights q.1]).zip
            ((s.grad_batch ++ [queryLambdaOf cfg s.weights q]).map
              fun g => g.map fun v => v / (cfg.batch_size : ℝ))) ∧
      ((s.count + 1) % cfg.batch_size ≠ 0 →
        s₂.stepCalls = s.stepCalls ∧ s₂.backwardLog = s.backwardLog ∧
        s₂.weights = s.weights ∧ s₂.pendingGrads = s.pendingGrads ∧
        s₂.grad_batch = s.grad_batch ++ [queryLambdaOf cfg s.weights q] ∧
        s₂.y_pred_batch = s.y_pred_batch ++ [cfg.net s.weights q.1]) := by
  have hstep := processQuery_run cfg s q hq hpol
  by_cases hc : (s.count + 1) % cfg.batch_size = 0
  · exact ⟨_, hstep, by simp [maybeFlush, accumState, hc],
      fun _ => by
        refine ⟨?_, ?_, ?_, ?_, ?_⟩ <;> simp [maybeFlush, accumState, hc],
      fun hn => absurd hc hn⟩
  · exact ⟨_, hstep, by simp [maybeFlush, accumState, hc],
      fun hpos => absurd hpos hc,
      fun _ => by
        refine ⟨?_, ?_, ?_, ?_, ?_, ?_⟩ <;> simp [maybeFlush, accumState, hc]⟩

/-- C6: after each non-degenerate query, when the non-degenerate query counter
reaches a multiple of the window size exactly one flush occurs — every stored
(score, lambda) pair is back-propagated with the lambda divided by the window
size, exactly one optimizer step is applied, gradients are zeroed and both batch
buffers are empty afterwards; when the counter has not reached a multiple, the
pair is only queued and zero optimizer steps occur. -/
theorem flush_semantics {W : Type} (cfg : Cfg W) (s : TrainState W) (q : Query)
    (hB : 0 < cfg.batch_size) (hq : q.2.sum ≠ 0)
    (hpol : cfg.policy = "exp2" ∨ cfg.policy = "identity") :
    ∃ s₂, processQuery cfg s q = Except.ok s₂ ∧ s₂.count = s.count + 1 ∧
      ((s.count + 1) % cfg.batch_size = 0 →
        s₂.stepCalls = s.stepCalls + 1 ∧ s₂.grad_batch = [] ∧
        s₂.y_pred_batch = [] ∧ s₂.pendingGrads = [] ∧
        s₂.backwardLog = s.backwardLog ++
          (s.y_pred_batch ++ [cfg.net s.weights q.1]).zip
            ((s.grad_batch ++ [queryLambdaOf cfg s.weights q]).map
              fun g => g.map fun v => v / (cfg.batch_size : ℝ))) ∧
      ((s.count + 1) % cfg.batch_size ≠ 0 →
        s₂.stepCalls = s.stepCalls ∧ s₂.backwardLog = s.backwardLog ∧
        s₂.weights = s.weights ∧ s₂.pendingGrads = s.pendingGrads ∧
        s₂.grad_batch = s.grad_batch ++ [queryLambdaOf cfg s.weights q] ∧
        s₂.y_pred_batch = s.y_pred_batch ++ [cfg.net s.weights q.1]) :=
  processQuery_fields cfg s q hq hpol

/-- C6 witness: the flush characterization applied at window size 1, where the
first non-degenerate query triggers the flush. -/
theorem flush_semantics_witness :
    ∃ s₂, processQuery (cfg0 "exp2" 1) (initState ()) ([[1]], [1]) =
        Except.ok s₂ ∧ s₂.count = (initState ()).count + 1 ∧
      (((initState ()).count + 1) % (cfg0 "exp2" 1).batch_size = 0 →
        s₂.stepCalls = (initState ()).stepCalls + 1 ∧ s₂.grad_batch = [] ∧
        s₂.y_pred_batch = [] ∧ s₂.pendingGrads = [] ∧
        s₂.backwardLog = (initState ()).backwardLog ++
          ((initState ()).y_pred_batch ++
            [(cfg0 "exp2" 1).net (initState ()).weights ([[1]], [1]).1]).zip
            (((initState ()).grad_batch ++
              [queryLambdaOf (cfg0 "exp2" 1) (initState ()).weights ([[1]], [1])]).map
              fun g => g.map fun v => v / (((cfg0 "exp2" 1).batch_size : ℕ) : ℝ))) ∧
      (((initState ()).count + 1) % (cfg0 "exp2" 1).batch_size ≠ 0 →
        s₂.stepCalls = (initState ()).stepCalls ∧
        s₂.backwardLog = (initState ()).backwardLog ∧
        s₂.weights = (initState ()).weights ∧
        s₂.pendingGrads = (initState ()).pendingGrads ∧
        s₂.grad_batch = (initState ()).grad_batch ++
          [queryLambdaOf (cfg0 "exp2" 1) (initState ()).weights ([[1]], [1])] ∧
        s₂.y_pred_batch = (initState ()).y_pred_batch ++
          [(cfg0 "exp2" 1).net (initState ()).weights ([[1]], [1]).1]) :=
  flush_semantics (cfg0 "exp2" 1) (initState ()) ([[1]], [1])
    (by decide) (by decide) (Or.inl rfl)

theorem runQueries_invariant {W : Type} (cfg : Cfg W)
    (hB : 0 < cfg.batch_size)
    (hpol : cfg.policy = "exp2" ∨ cfg.policy = "identity") :
    ∀ (qs : List Query) (s : TrainState W),
      s.grad_batch.length = s.count % cfg.batch_size →
      s.y_pred_batch.length = s.count % cfg.batch_size →
      ∃ s₂, runQueries cfg s qs = Except.ok s₂ ∧
        s₂.count = s.count + nondegCount qs ∧
        s₂.grad_batch.length = s₂.count % cfg.batch_size ∧
        s₂.y_pred_batch.length = s₂.count % cfg.batch_size ∧
        s₂.stepCalls + s.count / cfg.batch_size =
          s.stepCalls + s₂.count / cfg.batch_size ∧
        s₂.backwardLog.length + cfg.batch_size * (s.count / cfg.batch_size) =
          s.backwardLog.length + cfg.batch_size * (s₂.count / cfg.batch_size) ∧
        (s₂.count / cfg.batch_size = s.count / cfg.batch_size →
          s₂.weights = s.weights ∧ s₂.stepCalls = s.stepCalls ∧
          s₂.backwardLog = s.backwardLog) := by
  intro qs
  induction qs with
  | nil =>
      intro s hg hp
      exact ⟨s, rfl, by simp [nondegCount], hg, hp, rfl, rfl,
        fun _ => ⟨rfl, rfl, rfl⟩⟩
  | cons q qs ih =>
      intro s hg hp
      by_cases hq : q.2.sum = 0
      · have hstep : processQuery cfg s q = Except.ok s := by
          obtain ⟨X, Y⟩ := q
          exact processQuery_skip cfg s X Y hq
        obtain ⟨s₂, hrun, hcnt, h1, h2, h3, h4, h5⟩ := ih s hg hp
        refine ⟨s₂, ?_, ?_, h1, h2, h3, h4, h5⟩
        · simp only [runQueries]
          rw [hstep]
          exact hrun
        · rw [hcnt]
          simp [nondegCount, List.countP_cons, hq]
      · obtain ⟨t, hstep, htc, hfpos, hfneg⟩ := processQuery_fields cfg s q hq hpol
        by_cases hflush : (s.count + 1) % cfg.batch_size = 0
        · obtain ⟨hmodB, hdiv⟩ := flush_mod_eq hB hflush
          obtain ⟨hsc, hgb, hyb, hpg, hbl⟩ := hfpos hflush
          have hginv : t.grad_batch.length = t.count % cfg.batch_size := by
            rw [hgb, htc, hflush]
            rfl
          have hpinv : t.y_pred_batch.length = t.count % cfg.batch_size := by
            rw [hyb, htc, hflush]
            rfl
          have hbllen : t.backwardLog.length =
              s.backwardLog.length + cfg.batch_size := by
            rw [hbl]
            simp [hg, hp, hmodB]
          obtain ⟨s₂, hrun, hcnt, h1, h2, h3, h4, h5⟩ := ih t hginv hpinv
          refine ⟨s₂, ?_, ?_, h1, h2, ?_, ?_, ?_⟩
          · simp only [runQueries]
            rw [hstep]
            exact hrun
          · rw [hcnt, htc]
            simp [nondegCount, List.countP_cons, hq]
            omega
          · have h3' := h3
            rw [htc, hdiv, hsc] at h3'
            generalize hA : s.count / cfg.batch_size = A at h3' ⊢
            generalize hC : s₂.count / cfg.batch_size = C at h3' ⊢
            omega
          · have h4' := h4
            rw [htc, hdiv, hbllen, Nat.mul_add, Nat.mul_one] at h4'
            generalize hA : cfg.batch_size * (s.count / cfg.batch_size) = A at h4' ⊢
            generalize hC : cfg.batch_size * (s₂.count / cfg.batch_size) = C at h4' ⊢
            omega
          · intro himp
            exfalso
            have hle : t.count ≤ s₂.count := by
              rw [hcnt]
              exact Nat.le_add_right _ _
            have hdle : t.count / cfg.batch_size ≤ s₂.count / cfg.batch_size :=
              Nat.div_le_div_right hle
            rw [htc, hdiv, himp] at hdle
            exact Nat.not_succ_le_self _ hdle
        · obtain ⟨hmod, hdiv⟩ := noflush_mod_eq hB hflush
          obtain ⟨hsc, hbleq, hw, hpg, hgb, hyb⟩ := hfneg hflush
          have hginv : t.grad_batch.length = t.count % cfg.batch_size := by
            rw [hgb, htc, hmod]
            simp [hg]
          have hpinv : t.y_pred_batch.length = t.count % cfg.batch_size := by
            rw [hyb, htc, hmod]
            simp [hp]
          obtain ⟨s₂, hrun, hcnt, h1, h2, h3, h4, h5⟩ := ih t hginv hpinv
          refine ⟨s₂, ?_, ?_, h1, h2, ?_, ?_, ?_⟩
          · simp only [runQueries]
            rw [hstep]
            exact hrun
          · rw [hcnt, htc]
            simp [nondegCount, List.countP_cons, hq]
            omega
          · have h3' := h3
            rw [htc, hdiv, hsc] at h3'
            exact h3'
          · have h4' := h4
            rw [htc, hdiv, hbleq] at h4'
            exact h4'
          · intro himp
            have himp2 : s₂.count / cfg.batch_size = t.count / cfg.batch_size := by
              rw [htc, hdiv, himp]
            obtain ⟨hw2, hsc2, hbl2⟩ := h5 himp2
            exact ⟨hw2.trans hw, hsc2.trans hsc, hbl2.trans hbleq⟩

/-- C7: a trailing partial batch is discarded at the epoch boundary without any
backward call or optimizer step: appending trailing queries that do not complete
another accumulation window leaves the weights, the optimizer-step count and the
backward-call log exactly as they were without them; in total the epoch applies
`nondeg / batch_size` optimizer steps, the trailing `nondeg % batch_size` pairs
stay in the buffers un-propagated, and the next epoch's initialization resets
the counter and both buffers before it begins. -/
theorem partial_batch_discarded {W : Type} (cfg : Cfg W) (s : TrainState W)
    (pre post : List Query) (hB : 0 < cfg.batch_size)
    (hpol : cfg.policy = "exp2" ∨ cfg.policy = "identity")
    (hnoflush : nondegCount (pre ++ post) / cfg.batch_size =
      nondegCount pre / cfg.batch_size) :
    ∃ s₁ s₂, runEpoch cfg s pre = Except.ok s₁ ∧
      runEpoch cfg s (pre ++ post) = Except.ok s₂ ∧
      s₂.weights = s₁.weights ∧ s₂.stepCalls = s₁.stepCalls ∧
      s₂.backwardLog = s₁.backwardLog ∧
      s₂.stepCalls = s.stepCalls + nondegCount (pre ++ post) / cfg.batch_size ∧
      s₂.grad_batch.length = nondegCount (pre ++ post) % cfg.batch_size ∧
      (epochInit s₂).count = 0 ∧ (epochInit s₂).grad_batch = [] ∧
      (epochInit s₂).y_pred_batch = [] := by
  have hinv1 : (epochInit s).grad_batch.length =
      (epochInit s).count % cfg.batch_size := by
    simp [epochInit]
  have hinv2 : (epochInit s).y_pred_batch.length =
      (epochInit s).count % cfg.batch_size := by
    simp [epochInit]
  obtain ⟨s₁, hrun1, hcnt1, hg1, hp1, hsc1, hbl1, himp1⟩ :=
    runQueries_invariant cfg hB hpol pre (epochInit s) hinv1 hinv2
  obtain ⟨s₂, hrun2, hcnt2, hg2, hp2, hsc2, hbl2, himp2⟩ :=
    runQueries_invariant cfg hB hpol post s₁ hg1 hp1
  have hc1 : s₁.count = nondegCount pre := by
    rw [hcnt1]
    simp [epochInit]
  have hc2 : s₂.count = nondegCount (pre ++ post) := by
    rw [hcnt2, hc1]
    simp [nondegCount, List.countP_append]
  have hrunE : runEpoch cfg s (pre ++ post) = Except.ok s₂ := by
    unfold runEpoch
    rw [runQueries_append, hrun1]
    exact hrun2
  have hdiveq : s₂.count / cfg.batch_size = s₁.count / cfg.batch_size := by
    rw [hc2, hc1, hnoflush]
  obtain ⟨hw, hsc, hbl⟩ := himp2 hdiveq
  refine ⟨s₁, s₂, hrun1, hrunE, hw, hsc, hbl, ?_, ?_, rfl, rfl, rfl⟩
  · have hsc1' : s₁.stepCalls + 0 / cfg.batch_size =
        s.stepCalls + s₁.count / cfg.batch_size := hsc1
    rw [hsc, hnoflush, ← hc1]
    simpa using hsc1'
  · rw [hg2, hc2]

/-- C7 witness: window size 2 with one trailing non-degenerate query — the epoch
applies zero optimizer steps and the trailing pair is discarded. -/
theorem partial_batch_discarded_witness :
    ∃ s₁ s₂, runEpoch (cfg0 "exp2" 2) (initState ()) [] = Except.ok s₁ ∧
      runEpoch (cfg0 "exp2" 2) (initState ()) ([] ++ [([[1]], [1])]) =
        Except.ok s₂ ∧
      s₂.weights = s₁.weights ∧ s₂.stepCalls = s₁.stepCalls ∧
      s₂.backwardLog = s₁.backwardLog ∧
      s₂.stepCalls = (initState ()).stepCalls +
        nondegCount ([] ++ [([[1]], [1])]) / (cfg0 "exp2" 2).batch_size ∧
      s₂.grad_batch.length =
        nondegCount ([] ++ [([[1]], [1])]) % (cfg0 "exp2" 2).batch_size ∧
      (epochInit s₂).count = 0 ∧ (epochInit s₂).grad_batch = [] ∧
      (epochInit s₂).y_pred_batch = [] :=
  partial_batch_discarded (cfg0 "exp2" 2) (initState ()) [] [([[1]], [1])]
    (by decide) (Or.inl rfl) (by decide)

end LR
